import Mathlib

/-!
Verification of the kindr rotation core (RotationMatrix.hpp and
QuaternionEigen.hpp) against its natural-language specification.

The C++ code is embedded shallowly: the 3x3 rotation-matrix wrapper is a
`Matrix (Fin 3) (Fin 3) ℝ`, quaternions are four real coefficients, and the
`double` arithmetic of the source (including `sin`, `cos`, `sqrt`, `pow`) is
modelled by exact real arithmetic.
-/

namespace Kindr

open Real Matrix

/-- The rotation-matrix coefficient container.  The C++ `RotationMatrix`
class privately wraps an `Eigen::Matrix<Scalar,3,3>`; `toImplementation` is
the wrapped matrix itself, so values of the class are modelled directly as
3x3 real matrices. -/
abbrev RotationMatrix : Type := Matrix (Fin 3) (Fin 3) ℝ

/-- Modelled from the spec: the precision-dependent threshold
`common::internal::NumTraits<Scalar>::dummy_precision()` used by the
small-angle branch; its definition lives in `common/common.hpp`, which is not
part of the sources.  The spec only requires a fixed positive
precision-dependent value; the double-precision value 1e-12 is used. -/
def dummy_precision : ℝ := 1e-12

/-- The rotation-vector value type: three components (axis times angle),
`x`, `y`, `z`, mirroring `RotationVector<PrimType_>`. -/
structure RotationVector where
  x : ℝ
  y : ℝ
  z : ℝ

/-- The Euclidean norm `rv.norm()` of a rotation vector (supplied by the
Eigen collaborator). -/
noncomputable def RotationVector.norm (rv : RotationVector) : ℝ :=
  Real.sqrt (rv.x * rv.x + rv.y * rv.y + rv.z * rv.z)

/-- `ConversionTraits<RotationMatrix, RotationVector>::convert`
(RotationMatrix.hpp, lines 312-370), transcribed term by term: the branch on
`v < dummy_precision()`, the active small-angle matrix, and the `t2..t17`
half-angle expansion of the large branch. -/
noncomputable def convert_RotationMatrix_RotationVector
    (rotationVector : RotationVector) : RotationMatrix :=
  let v1 := rotationVector.x
  let v2 := rotationVector.y
  let v3 := rotationVector.z
  let v := rotationVector.norm
  if v < dummy_precision then
    !![1, -v3, v2;
       v3, 1, -v1;
       -v2, v1, 1]
  else
    let t3 := v * (1/2)
    let t2 := Real.sin t3
    let t4 := Real.cos t3
    let t5 := 1 / (v * v)
    let t6 := t4 * v * v3
    let t7 := t2 * v1 * v2
    let t8 := t2 * t2
    let t9 := v1 * v1
    let t10 := v2 * v2
    let t11 := v3 * v3
    let t12 := v * v
    let t13 := t4 * t4
    let t14 := t12 * t13
    let t15 := t2 * v1 * v3
    let t16 := t4 * v * v1
    let t17 := t2 * v2 * v3
    !![t5 * (t14 - t8 * (-t9 + t10 + t11)), t2 * t5 * (t6 - t7) * (-2), t2 * t5 * (t15 + t4 * v * v2) * 2;
       t2 * t5 * (t6 + t7) * 2, t5 * (t14 - t8 * (t9 - t10 + t11)), t2 * t5 * (t16 - t17) * (-2);
       t2 * t5 * (t15 - t4 * v * v2) * 2, t2 * t5 * (t16 + t17) * 2, t5 * (t14 - t8 * (t9 + t10 - t11))]

/-- The skew-symmetric (cross-product) matrix of the vector `(v1,v2,v3)`,
in the active convention: diagonal `0`, off-diagonal entries `-v3, v2, v3,
-v1, -v2, v1` read row by row. -/
def skew3 (v1 v2 v3 : ℝ) : RotationMatrix :=
  !![0, -v3, v2;
     v3, 0, -v1;
     -v2, v1, 0]

/-- The closed-form half-angle trigonometric expansion of the spec for the
large branch of the rotation-vector conversion: the Rodrigues formula
written in `sin(v/2)` and `cos(v/2)`, using `sin v = 2 sin(v/2) cos(v/2)`
and `1 - cos v = 2 sin(v/2)^2`:
`I + (2 sin(v/2) cos(v/2) / v) K + (2 sin(v/2)^2 / v^2) K^2`
with `K` the skew matrix of the rotation vector. -/
noncomputable def halfAngleExpansion (rv : RotationVector) : RotationMatrix :=
  let v := rv.norm
  let s := Real.sin (v / 2)
  let c := Real.cos (v / 2)
  1 + (2 * s * c / v) • skew3 rv.x rv.y rv.z
    + (2 * s * s / (v * v)) • (skew3 rv.x rv.y rv.z * skew3 rv.x rv.y rv.z)

/-- `RotationMatrix::inverted()`: returns the transpose of the wrapped
matrix (RotationMatrix.hpp, lines 144-148). -/
def inverted (R : RotationMatrix) : RotationMatrix := R.transpose

/-- `RotationMatrix::transposed()`: returns the transpose of the wrapped
matrix (RotationMatrix.hpp, lines 161-165). -/
def transposed (R : RotationMatrix) : RotationMatrix := R.transpose

/-- `MultiplicationTraits<RotationBase<RotationMatrix>,
RotationBase<RotationMatrix>>::mult`: the plain matrix product of the two
wrapped matrices (RotationMatrix.hpp, lines 495-503). -/
def mult (lhs rhs : RotationMatrix) : RotationMatrix := lhs * rhs

/-- `FixingTraits<RotationMatrix>::fix` (RotationMatrix.hpp, lines 524-539):
computes `factor = 1/pow(det R, 1.0/3.0)` and rewrites the nine entries
scaled by `factor`.  `pow` on reals is `Real.rpow`. -/
noncomputable def fix (R : RotationMatrix) : RotationMatrix :=
  let factor := 1 / R.det ^ ((1 : ℝ)/3)
  !![factor * R 0 0, factor * R 0 1, factor * R 0 2;
     factor * R 1 0, factor * R 1 1, factor * R 1 2;
     factor * R 2 0, factor * R 2 1, factor * R 2 2]

/-- Modelled from the spec: the `EulerAnglesZyx` value type itself is not
part of the sources, only its conversion is.  Per the spec it stores three
scalar angles for the fixed rotation order Z, then Y, then X: the first
stored angle is the rotation angle about Z, the second about Y, the third
about X. -/
structure EulerAnglesZyx where
  first : ℝ
  second : ℝ
  third : ℝ

/-- Modelled from the spec: the accessor `z()` of `EulerAnglesZyx` returns
the rotation angle about the Z axis, which is the first stored angle. -/
def EulerAnglesZyx.z (e : EulerAnglesZyx) : ℝ := e.first

/-- Modelled from the spec: the accessor `y()` of `EulerAnglesZyx` returns
the rotation angle about the Y axis, which is the second stored angle. -/
def EulerAnglesZyx.y (e : EulerAnglesZyx) : ℝ := e.second

/-- Modelled from the spec: the accessor `x()` of `EulerAnglesZyx` returns
the rotation angle about the X axis, which is the third stored angle. -/
def EulerAnglesZyx.x (e : EulerAnglesZyx) : ℝ := e.third

/-- `ConversionTraits<RotationMatrix, EulerAnglesZyx>::convert`
(RotationMatrix.hpp, lines 432-489), the active (non-commented) branch,
transcribed term by term with its `phi = zyx.x()`, `theta = zyx.y()`,
`psi = zyx.z()` bindings and the `t2..t7` trigonometric terms. -/
noncomputable def convert_RotationMatrix_EulerAnglesZyx
    (zyx : EulerAnglesZyx) : RotationMatrix :=
  let phi := zyx.x
  let theta := zyx.y
  let psi := zyx.z
  let t2 := Real.cos theta
  let t3 := Real.sin psi
  let t4 := Real.cos psi
  let t5 := Real.sin theta
  let t6 := Real.cos phi
  let t7 := Real.sin phi
  !![t2 * t4, -t2 * t3, t5;
     t3 * t6 + t4 * t5 * t7, t4 * t6 - t3 * t5 * t7, -t2 * t7;
     t3 * t7 - t4 * t5 * t6, t4 * t7 + t3 * t5 * t6, t2 * t6]

/-- The elementary active rotation about the X axis by angle `a`. -/
noncomputable def Rx (a : ℝ) : RotationMatrix :=
  !![1, 0, 0;
     0, Real.cos a, -Real.sin a;
     0, Real.sin a, Real.cos a]

/-- The elementary active rotation about the Y axis by angle `a`. -/
noncomputable def Ry (a : ℝ) : RotationMatrix :=
  !![Real.cos a, 0, Real.sin a;
     0, 1, 0;
     -Real.sin a, 0, Real.cos a]

/-- The elementary active rotation about the Z axis by angle `a`. -/
noncomputable def Rz (a : ℝ) : RotationMatrix :=
  !![Real.cos a, -Real.sin a, 0;
     Real.sin a, Real.cos a, 0;
     0, 0, 1]

/-- The quaternion coefficient container of `Quaternion<PrimType>`:
four scalars `w`, `x`, `y`, `z`. -/
structure Quaternion where
  w : ℝ
  x : ℝ
  y : ℝ
  z : ℝ

/-- The default constructor `Quaternion() : Base(Implementation(0,0,0,0))`
(QuaternionEigen.hpp, lines 67-69); the Eigen constructor takes the
coefficients in the order `(w, x, y, z)`. -/
def Quaternion.default : Quaternion := ⟨0, 0, 0, 0⟩

/-- `Quaternion::norm()`, the Euclidean norm of the four coefficients
(supplied by the Eigen collaborator). -/
noncomputable def Quaternion.norm (q : Quaternion) : ℝ :=
  Real.sqrt (q.w * q.w + q.x * q.x + q.y * q.y + q.z * q.z)

/-- The default constructor `UnitQuaternion() : Base(Implementation::Identity())`
(QuaternionEigen.hpp, lines 191-193); Eigen's quaternion identity has
coefficients `(w,x,y,z) = (1,0,0,0)`. -/
def UnitQuaternion.default : Quaternion := ⟨1, 0, 0, 0⟩

/-- `ComparisonTraits<Quaternion>::isequal` (QuaternionEigen.hpp, lines
293-302): coefficient-by-coefficient equality of the four scalars.  This is
the predicate behind `operator==` on quaternions (lines 273-276). -/
def isequal (a b : Quaternion) : Prop :=
  a.w = b.w ∧ a.x = b.x ∧ a.y = b.y ∧ a.z = b.z

/-- The single error kind of the library.  Validity-checked constructors
signal `InvalidRepresentation` when the supplied coefficients violate the
manifold constraint. -/
inductive KindrError where
  | InvalidRepresentation

/-- The manifold constraint checked by the nine-scalar `RotationMatrix`
constructor: `R * Rᵀ` within `1e-4` of the identity in every entry, and
`det R` within `1e-4` of `1`. -/
def rotationMatrixValid (R : RotationMatrix) : Prop :=
  (∀ i j, |(R * R.transpose - 1) i j| ≤ 1e-4) ∧ |R.det - 1| ≤ 1e-4

/-- The nine-scalar constructor `RotationMatrix(r11, ..., r33)`
(RotationMatrix.hpp, lines 87-95).  Modelled from the spec: the assert
macros `KINDR_ASSERT_MATRIX_NEAR_DBG` / `KINDR_ASSERT_SCALAR_NEAR_DBG` live
in `common/assert_macros_eigen.hpp`, which is not part of the sources; per
the spec they throw an `InvalidRepresentation` error (in debug builds) when
orthogonality or unit determinant fails beyond the `1e-4` tolerance. -/
noncomputable def RotationMatrix_fromScalars
    (r11 r12 r13 r21 r22 r23 r31 r32 r33 : ℝ) :
    Except KindrError RotationMatrix :=
  let R : RotationMatrix := !![r11, r12, r13; r21, r22, r23; r31, r32, r33]
  haveI : Decidable (rotationMatrixValid R) := Classical.propDecidable _
  if rotationMatrixValid R then Except.ok R
  else Except.error KindrError.InvalidRepresentation

/-- The four-scalar constructor `UnitQuaternion(w, x, y, z)`
(QuaternionEigen.hpp, lines 202-205).  Modelled from the spec: the
`ASSERT_SCALAR_NEAR` macro lives in `rm/common/Common.hpp`, which is not
part of the sources; per the spec it throws an `InvalidRepresentation`
error when the norm differs from `1` by more than the `1e-6` tolerance. -/
noncomputable def UnitQuaternion_fromScalars (w x y z : ℝ) :
    Except KindrError Quaternion :=
  let q : Quaternion := ⟨w, x, y, z⟩
  if |q.norm - 1| ≤ 1e-6 then Except.ok q
  else Except.error KindrError.InvalidRepresentation

/- ------------------------------------------------------------------ -/
/- Theorems                                                            -/
/- ------------------------------------------------------------------ -/

/-- `fix` multiplies the whole coefficient matrix by the scalar
`1 / det(R)^(1/3)`. -/
lemma fix_eq_smul (R : RotationMatrix) :
    fix R = (1 / R.det ^ ((1 : ℝ)/3)) • R := by
  ext i j
  fin_cases i <;> fin_cases j <;>
    simp [fix, Matrix.smul_apply, Matrix.vecHead, Matrix.vecTail]

/-- Cube of the real cube root of a positive determinant. -/
lemma rpow_third_cube {d : ℝ} (hd : 0 < d) : (d ^ ((1 : ℝ)/3)) ^ (3 : ℕ) = d := by
  rw [← Real.rpow_natCast (d ^ ((1 : ℝ)/3)) 3, ← Real.rpow_mul hd.le]
  norm_num

/-- The determinant of `fix R` is exactly `1` whenever `det R > 0`. -/
lemma det_fix {R : RotationMatrix} (hd : 0 < R.det) : (fix R).det = 1 := by
  rw [fix_eq_smul, Matrix.det_smul]
  have hcube := rpow_third_cube hd
  have hpos : 0 < R.det ^ ((1 : ℝ)/3) := Real.rpow_pos_of_pos hd _
  have hcard : Fintype.card (Fin 3) = 3 := by simp
  rw [hcard]
  field_simp
  linarith [hcube]

/-- **C3**: for every rotation matrix satisfying the orthogonality
invariant `R * Rᵀ = 1`, `inverted R` is the transpose of `R`, and composing
`R` with `inverted R` through the rotation-matrix multiplication yields the
identity rotation. -/
theorem inverted_is_transpose_and_inverse (R : RotationMatrix)
    (h : R * R.transpose = 1) :
    inverted R = R.transpose ∧ mult R (inverted R) = 1 := by
  refine ⟨rfl, ?_⟩
  simpa [mult, inverted] using h

/-- Witness for C3 at the identity matrix. -/
theorem inverted_is_transpose_and_inverse_witness :
    (1 : RotationMatrix) * (1 : RotationMatrix).transpose = 1 ∧
      (inverted 1 = (1 : RotationMatrix).transpose ∧ mult 1 (inverted 1) = 1) := by
  have h : (1 : RotationMatrix) * (1 : RotationMatrix).transpose = 1 := by
    simp
  exact ⟨h, inverted_is_transpose_and_inverse 1 h⟩

/-- **C9**: `inverted` and `transposed` are extensionally equal — on every
coefficient matrix, orthogonal or not, both return exactly the coefficient
transpose — and `inverted` is not the true numeric matrix inverse on
non-orthogonal inputs: on the non-orthogonal matrix `diag(2,1,1)` the
product of `inverted` with the input is not the identity. -/
theorem inverted_eq_transposed :
    (∀ R : RotationMatrix, inverted R = transposed R ∧ inverted R = R.transpose) ∧
      mult (inverted !![2, 0, 0; 0, 1, 0; 0, 0, 1]) !![2, 0, 0; 0, 1, 0; 0, 0, 1] ≠ 1 := by
  refine ⟨fun R => ⟨rfl, rfl⟩, ?_⟩
  intro hcontra
  have h00 := congrFun (congrFun hcontra 0) 0
  simp [mult, inverted, Matrix.mul_apply, Fin.sum_univ_three, Matrix.one_apply,
    Matrix.transpose_apply, Matrix.vecHead, Matrix.vecTail] at h00
  norm_num at h00

/-- **C6**: converting the rotation vector `(0,0,0)` to a rotation matrix
produces the identity matrix exactly. -/
theorem convert_zero_rotation_vector_eq_identity :
    convert_RotationMatrix_RotationVector ⟨0, 0, 0⟩ = 1 := by
  have hnorm : (RotationVector.mk 0 0 0).norm = 0 := by
    simp [RotationVector.norm]
  rw [convert_RotationMatrix_RotationVector]
  rw [if_pos (by rw [hnorm]; norm_num [dummy_precision])]
  ext i j
  fin_cases i <;> fin_cases j <;>
    simp [Matrix.one_apply, Matrix.vecHead, Matrix.vecTail]

/-- **C10**: the default `Quaternion` constructor produces the zero
quaternion `(w,x,y,z) = (0,0,0,0)`, whose norm is `0`, while the default
`UnitQuaternion` constructor produces the identity quaternion
`(1,0,0,0)`, whose norm is `1`. -/
theorem default_constructors :
    Quaternion.default = ⟨0, 0, 0, 0⟩ ∧ Quaternion.default.norm = 0 ∧
      UnitQuaternion.default = ⟨1, 0, 0, 0⟩ ∧ UnitQuaternion.default.norm = 1 := by
  refine ⟨rfl, ?_, rfl, ?_⟩
  · simp [Quaternion.norm, Quaternion.default]
  · simp [Quaternion.norm, UnitQuaternion.default]

/-- **C5**: on every rotation matrix (in particular every matrix with
positive determinant), `fix` is idempotent — `fix (fix R) = fix R` exactly
in real arithmetic — and on every already-valid matrix (orthogonal with
determinant `1`) `fix` changes nothing. -/
theorem fix_idempotent (R : RotationMatrix) (hd : 0 < R.det) :
    fix (fix R) = fix R ∧ (R * R.transpose = 1 ∧ R.det = 1 → fix R = R) := by
  constructor
  · rw [fix_eq_smul (fix R), det_fix hd]
    simp [Real.one_rpow]
  · rintro ⟨-, hdet⟩
    rw [fix_eq_smul, hdet]
    simp [Real.one_rpow]

/-- Witness for C5 at the identity matrix. -/
theorem fix_idempotent_witness :
    fix (fix (1 : RotationMatrix)) = fix 1 ∧ fix (1 : RotationMatrix) = 1 := by
  have h := fix_idempotent (1 : RotationMatrix) (by simp)
  exact ⟨h.1, h.2 ⟨by simp, by simp⟩⟩

/-- **C8**: for every matrix with positive determinant, `fix R` is the
uniform scalar multiple of `R` by `1 / det(R)^(1/3)`, its determinant is
exactly `1`, and its orthogonality defect is the defect of `R` scaled by
the square of that factor — `fix` rescales but does not re-orthogonalize. -/
theorem fix_uniform_scaling (R : RotationMatrix) (hd : 0 < R.det) :
    fix R = (1 / R.det ^ ((1 : ℝ)/3)) • R ∧ (fix R).det = 1 ∧
      fix R * (fix R).transpose =
        ((1 / R.det ^ ((1 : ℝ)/3)) ^ 2) • (R * R.transpose) := by
  refine ⟨fix_eq_smul R, det_fix hd, ?_⟩
  rw [fix_eq_smul]
  rw [Matrix.transpose_smul, Matrix.smul_mul, Matrix.mul_smul, smul_smul]
  ring_nf

/-- Witness for C8 at the identity matrix. -/
theorem fix_uniform_scaling_witness :
    fix (1 : RotationMatrix) = (1 / (1 : RotationMatrix).det ^ ((1 : ℝ)/3)) • 1 ∧
      (fix (1 : RotationMatrix)).det = 1 ∧
      fix (1 : RotationMatrix) * (fix (1 : RotationMatrix)).transpose =
        ((1 / (1 : RotationMatrix).det ^ ((1 : ℝ)/3)) ^ 2) •
          ((1 : RotationMatrix) * (1 : RotationMatrix).transpose) :=
  fix_uniform_scaling 1 (by simp)

/-- **C7, counterexample**: the claim asserts that a quaternion compares
equal to its negation under the library's quaternion equality; the code's
`isequal` is raw coefficient equality, so `(1,0,0,0)` and `(-1,0,0,0)` do
not compare equal. -/
theorem isequal_not_canonicalizing :
    ¬ isequal ⟨1, 0, 0, 0⟩ ⟨-1, 0, 0, 0⟩ := by
  intro h
  have hw := h.1
  norm_num at hw

/-- **C7, amended**: quaternion equality is raw coefficient-by-coefficient
equality — two quaternion values compare equal precisely when all four
coefficients agree exactly; no canonicalization or tolerance is involved,
so `q` and `-q` compare unequal whenever they differ in a coefficient. -/
theorem isequal_iff_eq (a b : Quaternion) : isequal a b ↔ a = b := by
  constructor
  · rintro ⟨h1, h2, h3, h4⟩
    cases a
    cases b
    simp_all
  · rintro rfl
    exact ⟨rfl, rfl, rfl, rfl⟩

/-- **C4**: the validity-checked constructors raise
`InvalidRepresentation` exactly when the supplied coefficients violate the
manifold constraint beyond the fixed tolerance: the nine-scalar matrix
constructor fails iff the matrix is not orthogonal with determinant `1`
within `1e-4`, and the four-scalar unit-quaternion constructor fails iff
the norm differs from `1` by more than `1e-6`. -/
theorem constructors_fail_iff_invalid
    (r11 r12 r13 r21 r22 r23 r31 r32 r33 w x y z : ℝ) :
    (RotationMatrix_fromScalars r11 r12 r13 r21 r22 r23 r31 r32 r33 =
        Except.error KindrError.InvalidRepresentation ↔
      ¬ rotationMatrixValid !![r11, r12, r13; r21, r22, r23; r31, r32, r33]) ∧
    (UnitQuaternion_fromScalars w x y z =
        Except.error KindrError.InvalidRepresentation ↔
      1e-6 < |Quaternion.norm ⟨w, x, y, z⟩ - 1|) := by
  constructor
  · rw [RotationMatrix_fromScalars]
    split_ifs with hvalid <;> simp [hvalid]
  · rw [UnitQuaternion_fromScalars]
    split_ifs with hnear <;> simp_all [not_le, le_of_lt]

/-- **C2, counterexample**: the claim asserts
`convert (EulerAnglesZyx first second third) = Rz first * Ry second * Rx third`;
at `(first, second, third) = (π/2, 0, π/2)` the code's conversion differs
from that product (their `(0,1)` entries are `-1` and `0` respectively). -/
theorem convert_EulerAnglesZyx_not_Rz_Ry_Rx :
    convert_RotationMatrix_EulerAnglesZyx ⟨Real.pi/2, 0, Real.pi/2⟩ ≠
      Rz (Real.pi/2) * Ry 0 * Rx (Real.pi/2) := by
  intro hcontra
  have h01 := congrFun (congrFun hcontra 0) 1
  simp [convert_RotationMatrix_EulerAnglesZyx, Rx, Ry, Rz,
    EulerAnglesZyx.x, EulerAnglesZyx.y, EulerAnglesZyx.z,
    Matrix.mul_apply, Fin.sum_univ_three,
    Matrix.vecHead, Matrix.vecTail] at h01

/-- **C2, amended**: for all angle triples, converting
`EulerAnglesZyx (first, second, third)` to a rotation matrix yields the
matrix product `Rx third * Ry second * Rz first` of elementary active
rotations — the extrinsic (fixed-axis) composition that rotates about Z by
the first angle, then about Y by the second, then about X by the third,
which is the reverse of the claimed product order `Rz * Ry * Rx`. -/
theorem convert_EulerAnglesZyx_eq_Rx_Ry_Rz (e : EulerAnglesZyx) :
    convert_RotationMatrix_EulerAnglesZyx e = Rx e.third * Ry e.second * Rz e.first := by
  ext i j
  fin_cases i <;> fin_cases j <;>
    simp [convert_RotationMatrix_EulerAnglesZyx, Rx, Ry, Rz,
      EulerAnglesZyx.x, EulerAnglesZyx.y, EulerAnglesZyx.z,
      Matrix.mul_apply, Fin.sum_univ_three,
      Matrix.vecHead, Matrix.vecTail] <;> ring

set_option maxHeartbeats 1600000 in
/-- **C1**: the rotation-vector-to-matrix conversion has exactly two
branches selected by comparing the vector's norm `v` against
`dummy_precision`: below the threshold it returns the first-order
skew-symmetric approximation `I + skew(v)` (diagonal entries `1`,
off-diagonal entries `-v3, v2, v3, -v1, -v2, v1` in the active
convention); at or above the threshold it returns the closed-form
half-angle trigonometric expansion in `sin(v/2)` and `cos(v/2)`. -/
theorem convert_RotationVector_two_branches (rv : RotationVector) :
    convert_RotationMatrix_RotationVector rv =
      if rv.norm < dummy_precision
      then 1 + skew3 rv.x rv.y rv.z
      else halfAngleExpansion rv := by
  obtain ⟨v1, v2, v3⟩ := rv
  simp only [convert_RotationMatrix_RotationVector, halfAngleExpansion]
  split_ifs with h
  · ext i j
    fin_cases i <;> fin_cases j <;>
      simp [skew3, Matrix.one_apply, Matrix.add_apply,
        Matrix.vecHead, Matrix.vecTail]
  · have hge : dummy_precision ≤ RotationVector.norm ⟨v1, v2, v3⟩ := not_lt.mp h
    have hvpos : 0 < RotationVector.norm ⟨v1, v2, v3⟩ :=
      lt_of_lt_of_le (by norm_num [dummy_precision]) hge
    have hvne : RotationVector.norm ⟨v1, v2, v3⟩ ≠ 0 := ne_of_gt hvpos
    have hvsq : RotationVector.norm ⟨v1, v2, v3⟩ * RotationVector.norm ⟨v1, v2, v3⟩ =
        v1 * v1 + v2 * v2 + v3 * v3 := by
      simp only [RotationVector.norm]
      exact Real.mul_self_sqrt (by nlinarith [sq_nonneg v1, sq_nonneg v2, sq_nonneg v3])
    rw [show RotationVector.norm ⟨v1, v2, v3⟩ * (1/2) =
        RotationVector.norm ⟨v1, v2, v3⟩ / 2 from by ring]
    have hsc : Real.sin (RotationVector.norm ⟨v1, v2, v3⟩ / 2) *
          Real.sin (RotationVector.norm ⟨v1, v2, v3⟩ / 2) +
        Real.cos (RotationVector.norm ⟨v1, v2, v3⟩ / 2) *
          Real.cos (RotationVector.norm ⟨v1, v2, v3⟩ / 2) = 1 := by
      linear_combination Real.sin_sq_add_cos_sq (RotationVector.norm ⟨v1, v2, v3⟩ / 2)
    rw [Matrix.one_fin_three]
    generalize hv : RotationVector.norm ⟨v1, v2, v3⟩ = v at hvne hvsq hsc ⊢
    generalize hs : Real.sin (v / 2) = s at hsc ⊢
    generalize hc : Real.cos (v / 2) = c at hsc ⊢
    ext i j
    fin_cases i <;> fin_cases j <;>
      · simp only [skew3, Matrix.add_apply, Matrix.smul_apply,
          Matrix.mul_apply, Fin.sum_univ_three, Matrix.cons_val', Matrix.cons_val_zero,
          Matrix.cons_val_one, Matrix.head_cons, Matrix.head_fin_const,
          Matrix.empty_val', Matrix.cons_val_fin_one, Matrix.of_apply, smul_eq_mul]
        field_simp
        first
          | ring1
          | linear_combination (v * v) * hsc - (s * s) * hvsq

end Kindr
